import Mathlib

/-!
Verification of the NOSS keyword taxonomy matching and scoring engine.

Shallow embedding of `core/scoring.py`, `core/keywords.py` and the
document-category logic of `app.py`.  Text is modelled as `List Char`;
Python's compiled regular expressions (which are alternations of escaped
literal strings with word-boundary lookarounds, plus three fixed splitting
patterns) are modelled by executable scanners over `List Char`; Python's
`dict` is modelled by an insertion-ordered association list with
overwrite-on-existing-key; Python float arithmetic is modelled by exact
rational arithmetic with `round` modelled as round-half-to-even (Python 3
banker's rounding).  The `\w` and `\s` character classes and `str.lower`
are modelled over their ASCII behaviour.
-/

namespace NOSS

/-- ASCII model of Python's whitespace class `\s` (space, tab, newline,
carriage return, vertical tab, form feed). -/
def isSpaceChar (c : Char) : Bool :=
  c == ' ' || c == '\t' || c == '\n' || c == '\r' || c == Char.ofNat 11 || c == Char.ofNat 12

/-- ASCII model of Python's word-character class `\w`: letters, digits and
underscore. -/
def isWordChar (c : Char) : Bool :=
  c.isAlpha || c.isDigit || c == '_'

/-- ASCII model of `str.lower` on one character. -/
def lowerChar (c : Char) : Char :=
  if 'A' ≤ c && c ≤ 'Z' then Char.ofNat (c.toNat + 32) else c

/-- `str.lower` over a whole text. -/
def lowerList (t : List Char) : List Char := t.map lowerChar

/-- Helper of `strip`: remove trailing characters satisfying `isSpaceChar`. -/
def stripTrailing (l : List Char) : List Char :=
  (l.reverse.dropWhile isSpaceChar).reverse

/-- Model of Python's `str.strip()`: remove leading and trailing whitespace. -/
def strip (l : List Char) : List Char :=
  stripTrailing (l.dropWhile isSpaceChar)

/-- Length of the maximal run of whitespace characters starting the list
(the extent of a greedy `\s+`). -/
def countLeadingSpaces : List Char → Nat
  | [] => 0
  | c :: cs => if isSpaceChar c then countLeadingSpaces cs + 1 else 0

/-- Length of the maximal run of newline characters starting the list
(the extent of a greedy `\n+`). -/
def countLeadingNewlines : List Char → Nat
  | [] => 0
  | c :: cs => if c == '\n' then countLeadingNewlines cs + 1 else 0

/-- The substring `t[a:b]` as a list slice. -/
def slice (t : List Char) (a b : Nat) : List Char := (t.drop a).take (b - a)

/-- Length of the match of `_ITEM_SPLIT = \s-\s+` at position `p` of `t`,
or `none` when the pattern does not match there.  The trailing `\s+` is
greedy. -/
def itemSepLen (t : List Char) (p : Nat) : Option Nat :=
  if isSpaceChar (t.getD p 'x') && t.getD (p+1) 'x' == '-' && isSpaceChar (t.getD (p+2) 'x') then
    some (3 + countLeadingSpaces (t.drop (p+3)))
  else none

/-- The terminal punctuation class `[.!?:;]` of `_SENT_SPLIT`. -/
def isTermPunct (c : Char) : Bool :=
  c == '.' || c == '!' || c == '?' || c == ':' || c == ';'

/-- Length of the match of
`_SENT_SPLIT = (?<=[.!?:;])\s+|\n+|\s-\s+` at position `p` of `t`
(alternatives tried in order, each greedy), or `none`. -/
def sentSepLen (t : List Char) (p : Nat) : Option Nat :=
  if decide (0 < p) && isTermPunct (t.getD (p-1) 'x') && isSpaceChar (t.getD p 'x') then
    some (countLeadingSpaces (t.drop p))
  else if t.getD p 'x' == '\n' then
    some (countLeadingNewlines (t.drop p))
  else itemSepLen t p

/-- Worker for `pySplit`: scan positions left to right; `st` is the start of
the part being accumulated, `p` the scan position.  A separator match of
length `len` emits the part `t[st:p]` and restarts after the match, exactly
as `re.split` does for patterns that cannot match the empty string. -/
def splitAux (sep : List Char → Nat → Option Nat) (t : List Char) :
    Nat → Nat → Nat → List (List Char)
  | 0, st, _ => [slice t st t.length]
  | fuel+1, st, p =>
    if p < t.length then
      match sep t p with
      | some len => slice t st p :: splitAux sep t fuel (p + len) (p + len)
      | none => splitAux sep t fuel st (p + 1)
    else [slice t st t.length]

/-- Model of `re.split(pattern, t)` for a pattern whose match length at a
position is computed by `sep` (every match has length at least one). -/
def pySplit (sep : List Char → Nat → Option Nat) (t : List Char) : List (List Char) :=
  splitAux sep t (t.length + 1) 0 0

/-- The four CU text fields (the keys `"CU TITLE"`, `"CU DESCRIPTOR"`,
`"WORK ACTIVITY"`, `"PERFORMANCE CRITERIA"`). -/
inductive Field where
  | cuTitle
  | cuDescriptor
  | workActivity
  | performanceCriteria
deriving DecidableEq

/-- Embedding of `_iter_field_items` (`core/scoring.py`): strip the field
text; WORK ACTIVITY / PERFORMANCE CRITERIA are split by `\s-\s+` into
stripped nonempty items with the whole stripped text as fallback; the other
two fields are one single item. -/
def iter_field_items (field : Field) (text : List Char) : List (List Char) :=
  let text := strip text
  if text = [] then []
  else
    match field with
    | .workActivity | .performanceCriteria =>
      let items := ((pySplit itemSepLen text).map strip).filter (fun x => x ≠ [])
      if items = [] then [text] else items
    | _ => [text]

/-- A single occurrence reported by the compiled matcher:
`(m.start(), m.end(), m.group(0))`. -/
structure RMatch where
  start : Nat
  stop : Nat
  surface : List Char
deriving DecidableEq

/-- The literal `v` occurs in `t` at position `p`. -/
def matchesAt (v t : List Char) (p : Nat) : Bool :=
  decide ((t.drop p).take v.length = v)

/-- The lookbehind `(?<!\w)`: position `p` is not immediately preceded by a
word character. -/
def boundaryOkBefore (t : List Char) (p : Nat) : Bool :=
  decide (p = 0) || !isWordChar (t.getD (p-1) ' ')

/-- The lookahead `(?!\w)`: position `q` does not hold a word character. -/
def boundaryOkAfter (t : List Char) (q : Nat) : Bool :=
  decide (t.length ≤ q) || !isWordChar (t.getD q ' ')

/-- One alternative of the alternation matches at `p`: the literal occurs
there and the trailing lookahead holds at its end. -/
def variantMatchesAt (t v : List Char) (p : Nat) : Bool :=
  matchesAt v t p && boundaryOkAfter t (p + v.length)

/-- What the regex engine does at one position: if the shared lookbehind
holds, the first alternative (in alternation order) whose literal matches
and whose trailing lookahead holds is selected. -/
def firstMatchAt (vs : List (List Char)) (t : List Char) (p : Nat) : Option (List Char) :=
  if boundaryOkBefore t p then vs.find? (fun v => variantMatchesAt t v p) else none

/-- `finditer` scan: positions left to right, non-overlapping; after a match
the scan resumes at its end (advancing at least one position). -/
def scanFrom (vs : List (List Char)) (t : List Char) : Nat → Nat → List RMatch
  | 0, _ => []
  | fuel+1, p =>
    if p ≤ t.length then
      match firstMatchAt vs t p with
      | some v => ⟨p, p + v.length, v⟩ :: scanFrom vs t fuel (p + max 1 v.length)
      | none => scanFrom vs t fuel (p + 1)
    else []

/-- Semantics of `variants_regex.finditer(t)` for the compiled pattern
`(?<!\w)(?:v1|v2|...)(?!\w)` over escaped literals `vs` (in alternation
order). -/
def findMatches (vs : List (List Char)) (t : List Char) : List RMatch :=
  scanFrom vs t (t.length + 1) 0

/-- Python `dict` assignment `d[k] = v`: overwrite the (unique) existing
entry in place, else append (insertion order preserved). -/
def dinsert : List (List Char × List Char) → List Char → List Char →
    List (List Char × List Char)
  | [], k, v => [(k, v)]
  | p :: ps, k, v => if p.1 = k then (k, v) :: ps else p :: dinsert ps k v

/-- Python `d.get(k)`. -/
def dlookup (d : List (List Char × List Char)) (k : List Char) : Option (List Char) :=
  (d.find? (fun p => decide (p.1 = k))).map (fun p => p.2)

/-- Python `d.update(e)`: assign every entry of `e` into `d`, in order. -/
def dupdate (d e : List (List Char × List Char)) : List (List Char × List Char) :=
  e.foldl (fun d p => dinsert d p.1 p.2) d

/-- Separator class `[\s\-]` of `_tokenize`. -/
def isTokSep (c : Char) : Bool := isSpaceChar c || c == '-'

/-- Length of the maximal run of `[\s\-]` characters starting the list. -/
def countLeadingTokSeps : List Char → Nat
  | [] => 0
  | c :: cs => if isTokSep c then countLeadingTokSeps cs + 1 else 0

/-- Match length of `[\s\-]+` at position `p`, or `none`. -/
def tokSepLen (t : List Char) (p : Nat) : Option Nat :=
  if isTokSep (t.getD p 'x') then some (countLeadingTokSeps (t.drop p)) else none

/-- Embedding of `_tokenize` (`core/keywords.py`):
`re.split(r"[\s\-]+", p.strip().lower())` with empty tokens discarded. -/
def tokenize (p : List Char) : List (List Char) :=
  (pySplit tokSepLen (lowerList (strip p))).filter (fun t => t ≠ [])

/-- `t` ends with the suffix `suf`. -/
def endsWithL (t suf : List Char) : Bool :=
  decide (suf.length ≤ t.length) && decide (t.drop (t.length - suf.length) = suf)

/-- Embedding of `_morph_last_token_forms` (`core/keywords.py`).  The Python
function returns a set; the model returns a list whose order and
multiplicity are never observable downstream (all consumers are
membership-insensitive or map every element to the same value). -/
def morph_last_token_forms (tok : List Char) : List (List Char) :=
  let t := lowerList tok
  let forms :=
    if endsWithL t "y".data then
      let stem := t.take (t.length - 1)
      [t, stem ++ "ies".data, stem ++ "ied".data, stem ++ "ying".data, t ++ "s".data]
    else
      [t, t ++ "s".data, t ++ "es".data, t ++ "ed".data, t ++ "ing".data]
  if endsWithL t "al".data || endsWithL t "ic".data then forms ++ [t ++ "ly".data] else forms

/-- Embedding of `expand_phrase_variants` (`core/keywords.py`). -/
def expand_phrase_variants (phrase : List Char) : List (List Char) :=
  let toks := tokenize phrase
  match toks with
  | [] => []
  | t0 :: rest =>
    let lastForms := morph_last_token_forms ((t0 :: rest).getLast (by simp))
    if rest = [] then lastForms ++ [t0]
    else
      let stems := (t0 :: rest).dropLast
      let stemSpace := List.intercalate " ".data stems
      let stemHyphen := List.intercalate "-".data stems
      lowerList phrase ::
        (lastForms.flatMap (fun lf => [stemSpace ++ ' ' :: lf, stemHyphen ++ '-' :: lf]))

/-- The seed set of one base term: the term itself together with its
stripped, lowercased seed variants (`build_variant_map` inner loop). -/
def termSeeds (seedDict : List Char → List (List Char)) (base : List Char) :
    List (List Char) :=
  base :: (seedDict base).map (fun v => lowerList (strip v))

/-- All surfaces one base term registers: every seed expanded, plus every
seed verbatim. -/
def termVariants (seedDict : List Char → List (List Char)) (base : List Char) :
    List (List Char) :=
  (termSeeds seedDict base).flatMap (fun s => expand_phrase_variants s ++ [s])

/-- Register one base term into the surface-to-base dictionary: assign every
one of its surfaces to it. -/
def registerTerm (d : List (List Char × List Char))
    (seedDict : List Char → List (List Char)) (base : List Char) :
    List (List Char × List Char) :=
  (termVariants seedDict base).foldl (fun d v => dinsert d v base) d

/-- The surface-to-base dictionary obtained by processing the base terms in
the given order (`build_variant_map` main loop; Python iterates a `set`, so
the processing order is an input of the model). -/
def buildMap (order : List (List Char)) (seedDict : List Char → List (List Char)) :
    List (List Char × List Char) :=
  order.foldl (fun d b => registerTerm d seedDict b) []

/-- Embedding of `build_variant_map` (`core/keywords.py`): the normalized
base set and the surface-to-base dictionary. -/
def build_variant_map (baseList : List (List Char))
    (seedDict : List Char → List (List Char)) :
    List (List Char) × List (List Char × List Char) :=
  let baseSet := (baseList.map (fun b => lowerList (strip b))).dedup
  (baseSet, buildMap baseSet seedDict)

/-- Insert a surface into a list kept in decreasing length order (before the
first element that is not longer), as `sorted(..., key=len, reverse=True)`
orders it. -/
def insertLen (v : List Char) : List (List Char) → List (List Char)
  | [] => [v]
  | w :: ws => if w.length ≤ v.length then v :: w :: ws else w :: insertLen v ws

/-- `sorted(keys, key=len, reverse=True)`: stable sort by decreasing
length. -/
def sortLongestFirst (l : List (List Char)) : List (List Char) :=
  l.foldr insertLen []

/-- Embedding of `build_regex_and_maps` (`core/scoring.py`): the alternation
list of the compiled pattern (all surfaces, longest first), the combined
surface-to-base lookup (GreenTech entries applied first, IR4 entries
after), and the two base sets. -/
def build_regex_and_maps (greenBase irBase : List (List Char))
    (greenSeed irSeed : List Char → List (List Char)) :
    List (List Char) × List (List Char × List Char) × List (List Char) × List (List Char) :=
  let g := build_variant_map greenBase greenSeed
  let i := build_variant_map irBase irSeed
  let v2b := dupdate (dupdate [] g.2) i.2
  (sortLongestFirst (v2b.map (fun p => p.1)), v2b, g.1, i.1)

/-- Embedding of `find_and_count_variants` (`core/scoring.py`): all matcher
occurrences in the lowercased text whose surface has a base, as a per-base
occurrence counter and a `(start, end, base, surface)` list. -/
def find_and_count_variants (vs : List (List Char))
    (v2b : List (List Char × List Char)) (text : List Char) :
    (List Char → Nat) × List (Nat × Nat × List Char × List Char) :=
  if text = [] then (fun _ => 0, [])
  else
    let tlow := lowerList text
    let kept := (findMatches vs tlow).filterMap
      (fun m => (dlookup v2b (lowerList m.surface)).map
        (fun b => (m.start, m.stop, b, lowerList m.surface)))
    (fun b => kept.countP (fun r => decide (r.2.2.1 = b)), kept)

/-- Loop body of `_count_verb_mode_units_for_field` for one item: skip when
either match list is empty, test `any(v.start() < k.start())`, and when the
item qualifies add every keyword hit whose base is in the respective base
set. -/
def verbModeStep (vs : List (List Char)) (v2b : List (List Char × List Char))
    (verbs green ir : List (List Char)) (acc : Nat × Nat) (item : List Char) :
    Nat × Nat :=
  let s := lowerList item
  let vms := findMatches verbs s
  let kms := findMatches vs s
  if kms = [] ∨ vms = [] then acc
  else if vms.any (fun v => kms.any (fun k => decide (v.start < k.start))) then
    (acc.1 + (kms.filterMap (fun k => dlookup v2b (lowerList k.surface))).countP
        (fun b => decide (b ∈ green)),
     acc.2 + (kms.filterMap (fun k => dlookup v2b (lowerList k.surface))).countP
        (fun b => decide (b ∈ ir)))
  else acc

/-- Embedding of `_count_verb_mode_units_for_field` (`core/scoring.py`):
item-wise verb mode, repeated counting inside qualifying items. -/
def count_verb_mode_units_for_field (field : Field) (text : List Char)
    (vs : List (List Char)) (v2b : List (List Char × List Char))
    (verbs : List (List Char)) (green ir : List (List Char)) : Nat × Nat :=
  if text = [] then (0, 0)
  else (iter_field_items field text).foldl (verbModeStep vs v2b verbs green ir) (0, 0)

/-- Embedding of `count_keywords_with_optional_verbs` (`core/scoring.py`):
aggregate per-base counts over `_SENT_SPLIT` parts, optionally requiring a
verb before a keyword inside the part. -/
def count_keywords_with_optional_verbs (text : List Char) (vs : List (List Char))
    (v2b : List (List Char × List Char)) (require_verb_before : Bool)
    (verbs : List (List Char)) : List Char → Nat :=
  if text = [] then fun _ => 0
  else
    let parts := (pySplit sentSepLen text).filterMap
      (fun p => let q := strip p; if q = [] then none else some (lowerList q))
    let kept := parts.flatMap (fun s =>
      let kws := findMatches vs s
      if kws = [] then []
      else if require_verb_before &&
          !((findMatches verbs s).any (fun v => kws.any (fun k => decide (v.start < k.start)))) then
        []
      else kws.filterMap (fun k => dlookup v2b (lowerList k.surface)))
    fun b => kept.countP (fun x => decide (x = b))

/-- Python 3 `round` on an exact rational: round half to even. -/
def pyRound (q : ℚ) : ℤ :=
  let n := ⌊q⌋
  if q - n < 1/2 then n
  else if (1:ℚ)/2 < q - n then n + 1
  else if n % 2 = 0 then n else n + 1

/-- The GreenTech field-score expression of `compute_field_scores_dynamic`
(line 194): `int(round(w * min(u / th, 1.0)))` for an already clamped
threshold `th`. -/
def gt_score_formula (w : ℚ) (th : ℤ) (u : ℕ) : ℤ :=
  pyRound (w * min ((u : ℚ) / (th : ℚ)) 1)

/-- The IR4 field-score expression of `compute_field_scores_dynamic`
(line 195): `int(round(u / th * w if (u / th) < 1.0 else w))` for an
already clamped threshold `th` (the conditional expression is the argument
of `round`). -/
def ir_score_formula (w : ℚ) (th : ℤ) (u : ℕ) : ℤ :=
  pyRound (if ((u : ℚ) / (th : ℚ)) < 1 then ((u : ℚ) / (th : ℚ)) * w else w)

/-- The non-verb counting of `compute_field_scores_dynamic`: total keyword
hits over the whole field, split into GreenTech and IR4 units (the Python
sums of `counts_by_base` over each base set equal these match counts). -/
def plainFieldUnits (vs : List (List Char)) (v2b : List (List Char × List Char))
    (green ir : List (List Char)) (text : List Char) : Nat × Nat :=
  let kept := (find_and_count_variants vs v2b text).2
  (kept.countP (fun r => decide (r.2.2.1 ∈ green)),
   kept.countP (fun r => decide (r.2.2.1 ∈ ir)))

/-- The eligible unit counts `(gt_units, ir_units)` of
`compute_field_scores_dynamic` for one field: verb mode when a verb regex
is supplied and the field is in `verbs_required_fields`, plain repeated
counting otherwise. -/
def fieldUnits (cu : Field → List Char) (vs : List (List Char))
    (v2b : List (List Char × List Char)) (green ir : List (List Char))
    (verbsRegex : Option (List (List Char))) (verbsRequired : List Field)
    (field : Field) : Nat × Nat :=
  match verbsRegex with
  | some vr =>
    if field ∈ verbsRequired then
      count_verb_mode_units_for_field field (cu field) vs v2b vr green ir
    else plainFieldUnits vs v2b green ir (cu field)
  | none => plainFieldUnits vs v2b green ir (cu field)

/-- Embedding of `compute_field_scores_dynamic` (`core/scoring.py`): the
per-field GreenTech and IR4 score maps.  Weights are the integer per-field
points; thresholds are clamped by `max(1, ...)`. -/
def compute_field_scores_dynamic (cu : Field → List Char) (weights : Field → Nat)
    (thresholds : Field → Int) (vs : List (List Char))
    (v2b : List (List Char × List Char)) (green ir : List (List Char))
    (verbsRegex : Option (List (List Char))) (verbsRequired : List Field) :
    (Field → Int) × (Field → Int) :=
  ( fun field =>
      let th : Int := max 1 (thresholds field)
      let u := (fieldUnits cu vs v2b green ir verbsRegex verbsRequired field).1
      pyRound ((weights field : ℚ) * min ((u : ℚ) / (th : ℚ)) 1)
  , fun field =>
      let th : Int := max 1 (thresholds field)
      let u := (fieldUnits cu vs v2b green ir verbsRegex verbsRequired field).2
      pyRound (if ((u : ℚ) / (th : ℚ)) < 1 then ((u : ℚ) / (th : ℚ)) * (weights field : ℚ)
               else (weights field : ℚ)) )

/-- Embedding of the category decision of `app.py` (lines 200-207 and
498-505): Python truthiness of `(gt_ge50 or ir_ge50)` is nonzeroness. -/
def final_category (pctGt pctIr : ℚ) (gtPass irPass : Nat) : String :=
  if 50 ≤ pctGt ∧ 50 ≤ pctIr then "IR4.0 + GREEN TECHNOLOGY"
  else if 50 ≤ pctGt then "GREEN TECHNOLOGY"
  else if 50 ≤ pctIr then "IR4.0"
  else if gtPass ≠ 0 ∨ irPass ≠ 0 then "MATCHED LESS 50%"
  else "UNMATCHED"

/-- The document-level aggregation of `app.py`: per-CU totals to pass
counts, pass percentages (0 when there are no CUs) and the final category
label. -/
def document_category (totals : List (Int × Int)) : String :=
  let gtPass := totals.countP (fun p => decide (50 ≤ p.1))
  let irPass := totals.countP (fun p => decide (50 ≤ p.2))
  let n := totals.length
  let pctGt : ℚ := if n = 0 then 0 else (gtPass : ℚ) / (n : ℚ) * 100
  let pctIr : ℚ := if n = 0 then 0 else (irPass : ℚ) / (n : ℚ) * 100
  final_category pctGt pctIr gtPass irPass

/-! ### Claim-side (specification) definitions -/

/-- Boolean form of the per-unit qualification test. -/
def itemQualifiesB (vs verbs : List (List Char)) (item : List Char) : Bool :=
  (findMatches verbs (lowerList item)).any
    (fun v => (findMatches vs (lowerList item)).any (fun k => decide (v.start < k.start)))

/-- Specification of when a unit qualifies under verb gating: some verb
match of the unit starts strictly before some keyword match of the same
unit. -/
def itemQualifies (vs verbs : List (List Char)) (item : List Char) : Prop :=
  ∃ v ∈ findMatches verbs (lowerList item),
    ∃ k ∈ findMatches vs (lowerList item), v.start < k.start

instance (vs verbs : List (List Char)) (item : List Char) :
    Decidable (itemQualifies vs verbs item) :=
  decidable_of_iff (itemQualifiesB vs verbs item = true)
    (by simp [itemQualifiesB, itemQualifies, List.any_eq_true])

/-- The keyword hits of one unit that carry a base belonging to `bases`. -/
def itemHits (vs : List (List Char)) (v2b : List (List Char × List Char))
    (bases : List (List Char)) (item : List Char) : Nat :=
  ((findMatches vs (lowerList item)).filterMap
      (fun k => dlookup v2b (lowerList k.surface))).countP
    (fun b => decide (b ∈ bases))

/-- Specification-side gated count: each unit contributes its own keyword
hits exactly when it qualifies, and zero otherwise. -/
def gatedUnitCount (vs : List (List Char)) (v2b : List (List Char × List Char))
    (verbs : List (List Char)) (bases : List (List Char))
    (items : List (List Char)) : Nat :=
  (items.map (fun it => if itemQualifies vs verbs it then itemHits vs v2b bases it else 0)).sum

/-- Claim C3's sentence separator: terminal punctuation followed by
whitespace, or a newline run — without the item-delimiter alternative. -/
def claimSentSepLen (t : List Char) (p : Nat) : Option Nat :=
  if decide (0 < p) && isTermPunct (t.getD (p-1) 'x') && isSpaceChar (t.getD p 'x') then
    some (countLeadingSpaces (t.drop p))
  else if t.getD p 'x' == '\n' then
    some (countLeadingNewlines (t.drop p))
  else none

/-- The unit list claim C3 describes for verb-gated counting:
sentence units for Title/Descriptor, item units for WA/PC. -/
def claim3Units (field : Field) (text : List Char) : List (List Char) :=
  match field with
  | .workActivity | .performanceCriteria =>
    ((pySplit itemSepLen (strip text)).map strip).filter (fun x => x ≠ [])
  | _ =>
    ((pySplit claimSentSepLen (strip text)).map strip).filter (fun x => x ≠ [])

/-- The verb-gated counts claim C3 would produce over its unit list. -/
def claim3GatedUnits (field : Field) (text : List Char) (vs : List (List Char))
    (v2b : List (List Char × List Char)) (verbs : List (List Char))
    (green ir : List (List Char)) : Nat × Nat :=
  (gatedUnitCount vs v2b verbs green (claim3Units field text),
   gatedUnitCount vs v2b verbs ir (claim3Units field text))

/-- Amended unit list for claim C3: WA/PC are split at the explicit item
delimiter, Title/Descriptor form one single unit; no fallback case. -/
def claim3AmendedUnits (field : Field) (text : List Char) : List (List Char) :=
  let s := strip text
  if s = [] then []
  else
    match field with
    | .workActivity | .performanceCriteria =>
      ((pySplit itemSepLen s).map strip).filter (fun x => x ≠ [])
    | _ => [s]

/-- Claim C4's category decision, in the claim's words: both percentages at
least 50 give the combined label, else GreenTech, else IR4, else the
partially-matched label when at least one CU cleared either pass threshold,
else the unmatched label. -/
def category_claim (pctGt pctIr : ℚ) (gtPass irPass : Nat) : String :=
  if 50 ≤ pctGt ∧ 50 ≤ pctIr then "IR4.0 + GREEN TECHNOLOGY"
  else if 50 ≤ pctGt then "GREEN TECHNOLOGY"
  else if 50 ≤ pctIr then "IR4.0"
  else if 1 ≤ gtPass + irPass then "MATCHED LESS 50%"
  else "UNMATCHED"

/-- Claim C8's single-token inflections under the claim's strict wording:
the naive suffixes `-s`, `-es`, `-ed`, `-ing`, with a token ending in `y`
taking `-ies`, `-ied`, `-ying` in their place, and `-ly` additionally for
`al` and `ic`
endings. -/
def claim8Inflections (tok : List Char) : List (List Char) :=
  let t := lowerList tok
  let infl :=
    if endsWithL t "y".data then
      let stem := t.take (t.length - 1)
      [stem ++ "ies".data, stem ++ "ied".data, stem ++ "ying".data]
    else
      [t ++ "s".data, t ++ "es".data, t ++ "ed".data, t ++ "ing".data]
  if endsWithL t "al".data || endsWithL t "ic".data then infl ++ [t ++ "ly".data] else infl

/-- Claim C8's variant set under its strict wording: a single-token phrase
yields the token itself plus its inflections. -/
def claim8Strict (phrase : List Char) : List (List Char) :=
  match tokenize phrase with
  | [] => []
  | t0 :: rest =>
    if rest = [] then t0 :: claim8Inflections t0
    else
      let stems := (t0 :: rest).dropLast
      lowerList phrase ::
        ((claim8Inflections ((t0 :: rest).getLast (by simp))).flatMap (fun lf =>
          [List.intercalate " ".data stems ++ ' ' :: lf,
           List.intercalate "-".data stems ++ '-' :: lf]))

/-- Amended form set for one token (claim C8 amended): the token itself and
its naive `-s` plural are always present; a token ending in `y` takes
`-ies`, `-ied`, `-ying` in place of `-es`, `-ed`, `-ing`; `al` and `ic` endings add
`-ly`. -/
def claim8AmendedForms (tok : List Char) : List (List Char) :=
  let t := lowerList tok
  let naive :=
    if endsWithL t "y".data then
      let stem := t.take (t.length - 1)
      [t ++ "s".data, stem ++ "ies".data, stem ++ "ied".data, stem ++ "ying".data]
    else
      [t ++ "s".data, t ++ "es".data, t ++ "ed".data, t ++ "ing".data]
  let withLy :=
    if endsWithL t "al".data || endsWithL t "ic".data then naive ++ [t ++ "ly".data] else naive
  t :: withLy

/-- Amended claim C8 variant set: single-token phrases yield the token and
its amended forms; multi-token phrases yield the verbatim lowered phrase
plus the space-join and hyphen-join of the fixed leading tokens with every
amended form of the last token (the bare last token included). -/
def claim8Amended (phrase : List Char) : List (List Char) :=
  match tokenize phrase with
  | [] => []
  | t0 :: rest =>
    if rest = [] then claim8AmendedForms t0 ++ [t0]
    else
      let stems := (t0 :: rest).dropLast
      lowerList phrase ::
        ((claim8AmendedForms ((t0 :: rest).getLast (by simp))).flatMap (fun lf =>
          [List.intercalate " ".data stems ++ ' ' :: lf,
           List.intercalate "-".data stems ++ '-' :: lf]))

/-! ### Rounding and score-formula lemmas -/

lemma pyRound_intCast (n : Int) : pyRound (n : ℚ) = n := by
  unfold pyRound
  norm_num [Int.floor_intCast]

lemma pyRound_natCast (n : Nat) : pyRound (n : ℚ) = n := by
  have h := pyRound_intCast (n : Int)
  rwa [Int.cast_natCast] at h

/-- The IR4 conditional expression and the GreenTech min expression round to
the same integer: the conditional is the argument of `round`, and
multiplication commutes. -/
lemma round_cond_eq_round_min (x w : ℚ) :
    pyRound (if x < 1 then x * w else w) = pyRound (w * min x 1) := by
  by_cases h : x < 1
  · rw [if_pos h, min_eq_left h.le, mul_comm]
  · rw [if_neg h, min_eq_right (le_of_not_lt h), mul_one]

lemma gt_formula_saturated (w : ℚ) (th : Int) (u : Nat) (h1 : 0 < th)
    (h2 : th ≤ (u : Int)) :
    pyRound (w * min ((u : ℚ) / (th : ℚ)) 1) = pyRound w := by
  have hth : (0 : ℚ) < (th : ℚ) := by exact_mod_cast h1
  have hle : (th : ℚ) ≤ (u : ℚ) := by exact_mod_cast h2
  rw [min_eq_right ((one_le_div hth).mpr hle), mul_one]

lemma score_formula_zero (w : Nat) (th : Int) :
    pyRound ((w : ℚ) * min ((0 : ℚ) / (th : ℚ)) 1) = 0 := by
  rw [zero_div, min_eq_left zero_le_one, mul_zero]
  exact pyRound_intCast 0

lemma ir_formula_zero (w : Nat) (th : Int) :
    pyRound (if ((0 : ℚ) / (th : ℚ)) < 1 then ((0 : ℚ) / (th : ℚ)) * (w : ℚ) else (w : ℚ)) = 0 := by
  rw [zero_div, if_pos zero_lt_one, zero_mul]
  exact pyRound_intCast 0

/-- Claim C10 is false on the code: the two field-scorer expressions of
`compute_field_scores_dynamic` (lines 194 and 195) are one and the same
function of weight, threshold and unit count, so no unit count, threshold
(in particular none at least 1) and weight make them compute different
scores — in the source the conditional expression is the argument of
`round`, so rounding applies at saturation too, and below saturation the
two products are the same number. -/
theorem score_formulas_agree_everywhere : ir_score_formula = gt_score_formula := by
  funext w th u
  exact round_cond_eq_round_min ((u : ℚ) / (th : ℚ)) w

/-- Claim C10 (amended): the two field-scorer formulas in the source are
algebraically identical — for every input the IR4 score produced by
`compute_field_scores_dynamic` equals `round(weight * min(units/threshold, 1.0))`,
the same formula that produces the GreenTech score. -/
theorem ir_score_matches_gt_formula_spec (cu : Field → List Char)
    (weights : Field → Nat) (thresholds : Field → Int) (vs : List (List Char))
    (v2b : List (List Char × List Char)) (green ir : List (List Char))
    (verbsRegex : Option (List (List Char))) (verbsRequired : List Field)
    (field : Field) :
    (compute_field_scores_dynamic cu weights thresholds vs v2b green ir
        verbsRegex verbsRequired).2 field
      = pyRound ((weights field : ℚ) *
          min (((fieldUnits cu vs v2b green ir verbsRegex verbsRequired field).2 : ℚ) /
               ((max 1 (thresholds field) : Int) : ℚ)) 1) :=
  round_cond_eq_round_min _ _

/-- Claim C1: for every CU field the computed field score (GreenTech and
IR4 alike) equals `round(weight * min(units / max(threshold, 1), 1.0))`
where `units` is the eligible unit count produced by the active counting
policy; the threshold is clamped to at least 1, and once the unit count
reaches the clamped threshold the score is exactly the weight. -/
theorem field_score_formula_spec (cu : Field → List Char) (weights : Field → Nat)
    (thresholds : Field → Int) (vs : List (List Char))
    (v2b : List (List Char × List Char)) (green ir : List (List Char))
    (verbsRegex : Option (List (List Char))) (verbsRequired : List Field)
    (field : Field) :
    (compute_field_scores_dynamic cu weights thresholds vs v2b green ir
        verbsRegex verbsRequired).1 field
      = pyRound ((weights field : ℚ) *
          min (((fieldUnits cu vs v2b green ir verbsRegex verbsRequired field).1 : ℚ) /
               ((max (thresholds field) 1 : Int) : ℚ)) 1)
    ∧ (compute_field_scores_dynamic cu weights thresholds vs v2b green ir
        verbsRegex verbsRequired).2 field
      = pyRound ((weights field : ℚ) *
          min (((fieldUnits cu vs v2b green ir verbsRegex verbsRequired field).2 : ℚ) /
               ((max (thresholds field) 1 : Int) : ℚ)) 1)
    ∧ ((max (thresholds field) 1 : Int)
          ≤ ((fieldUnits cu vs v2b green ir verbsRegex verbsRequired field).1 : Int) →
        (compute_field_scores_dynamic cu weights thresholds vs v2b green ir
          verbsRegex verbsRequired).1 field = weights field)
    ∧ ((max (thresholds field) 1 : Int)
          ≤ ((fieldUnits cu vs v2b green ir verbsRegex verbsRequired field).2 : Int) →
        (compute_field_scores_dynamic cu weights thresholds vs v2b green ir
          verbsRegex verbsRequired).2 field = weights field) := by
  have hmax : max (thresholds field) 1 = max 1 (thresholds field) := max_comm _ _
  have hpos : (0 : Int) < max 1 (thresholds field) := lt_of_lt_of_le zero_lt_one (le_max_left _ _)
  refine ⟨by rw [hmax]; rfl, ?_, ?_, ?_⟩
  · rw [hmax]
    exact round_cond_eq_round_min _ _
  · intro hsat
    rw [hmax] at hsat
    show pyRound ((weights field : ℚ) * min _ 1) = _
    rw [gt_formula_saturated _ _ _ hpos hsat, pyRound_natCast]
  · intro hsat
    rw [hmax] at hsat
    show pyRound (if _ < 1 then _ else _) = _
    rw [round_cond_eq_round_min, gt_formula_saturated _ _ _ hpos hsat, pyRound_natCast]

/-- Witness for claim C1 at a concrete input: one match of `energy` in the
CU title against threshold 1 and weight 5 saturates the GreenTech title
score at exactly 5. -/
theorem field_score_formula_spec_witness :
    (compute_field_scores_dynamic
        (fun f => if f = Field.cuTitle then "use energy now".data else [])
        (fun _ => 5) (fun _ => 1) ["energy".data] [("energy".data, "energy".data)]
        ["energy".data] [] none []).1 Field.cuTitle = 5 :=
  (field_score_formula_spec
      (fun f => if f = Field.cuTitle then "use energy now".data else [])
      (fun _ => 5) (fun _ => 1) ["energy".data] [("energy".data, "energy".data)]
      ["energy".data] [] none [] Field.cuTitle).2.2.1 (by decide)

lemma final_category_eq_claim (p q : ℚ) (g i : Nat) :
    final_category p q g i = category_claim p q g i := by
  have hgi : (g ≠ 0 ∨ i ≠ 0) ↔ 1 ≤ g + i := by omega
  by_cases hp : 50 ≤ p <;> by_cases hq : 50 ≤ q <;>
    simp [final_category, category_claim, hp, hq, hgi]

/-- Claim C4: the document category label is the stated deterministic total
function of the two pass percentages (fraction of CUs whose per-taxonomy
total clears the pass threshold 50) and the two pass counts, evaluated in
the fixed precedence order: combined, GreenTech, IR4, partially matched
when at least one CU cleared either threshold, else unmatched. -/
theorem document_category_spec (totals : List (Int × Int)) :
    document_category totals =
      category_claim
        (if totals.length = 0 then 0
         else (totals.countP (fun p => decide (50 ≤ p.1)) : ℚ) / (totals.length : ℚ) * 100)
        (if totals.length = 0 then 0
         else (totals.countP (fun p => decide (50 ≤ p.2)) : ℚ) / (totals.length : ℚ) * 100)
        (totals.countP (fun p => decide (50 ≤ p.1)))
        (totals.countP (fun p => decide (50 ≤ p.2))) := by
  unfold document_category
  exact final_category_eq_claim _ _ _ _

/-! ### Verb-gate locality (claim C2) -/

lemma verbModeStep_eq (vs : List (List Char)) (v2b : List (List Char × List Char))
    (verbs green ir : List (List Char)) (acc : Nat × Nat) (item : List Char) :
    verbModeStep vs v2b verbs green ir acc item
      = (acc.1 + (if itemQualifies vs verbs item then itemHits vs v2b green item else 0),
         acc.2 + (if itemQualifies vs verbs item then itemHits vs v2b ir item else 0)) := by
  unfold verbModeStep
  by_cases hq : itemQualifies vs verbs item
  · rw [if_pos hq, if_pos hq]
    obtain ⟨v, hv, k, hk, hlt⟩ := hq
    have hne : ¬(findMatches vs (lowerList item) = [] ∨ findMatches verbs (lowerList item) = []) := by
      rintro (h | h)
      · rw [h] at hk; exact List.not_mem_nil k hk
      · rw [h] at hv; exact List.not_mem_nil v hv
    have hany : (findMatches verbs (lowerList item)).any
        (fun v => (findMatches vs (lowerList item)).any (fun k => decide (v.start < k.start)))
          = true := by
      rw [List.any_eq_true]
      refine ⟨v, hv, ?_⟩
      rw [List.any_eq_true]
      exact ⟨k, hk, by simpa using hlt⟩
    rw [if_neg hne, if_pos hany]
    rfl
  · rw [if_neg hq, if_neg hq, Nat.add_zero, Nat.add_zero]
    by_cases hz : findMatches vs (lowerList item) = [] ∨ findMatches verbs (lowerList item) = []
    · rw [if_pos hz]
    · have hany : ¬ ((findMatches verbs (lowerList item)).any
          (fun v => (findMatches vs (lowerList item)).any (fun k => decide (v.start < k.start)))
            = true) := by
        intro h
        apply hq
        rw [List.any_eq_true] at h
        obtain ⟨v, hv, h2⟩ := h
        rw [List.any_eq_true] at h2
        obtain ⟨k, hk, h3⟩ := h2
        exact ⟨v, hv, k, hk, by simpa using h3⟩
      rw [if_neg hz, if_neg hany]

lemma iter_field_items_empty (field : Field) : iter_field_items field [] = [] := rfl

/-- Claim C2: under verb gating, a unit's keyword hits are counted exactly
when some verb match of that same unit starts strictly before some keyword
match of that same unit; each unit contributes independently (a
non-qualifying unit contributes zero, and a verb match in one unit never
affects another unit's eligibility), so the total is the per-unit sum. -/
theorem verb_gate_unit_local_spec (field : Field) (text : List Char)
    (vs : List (List Char)) (v2b : List (List Char × List Char))
    (verbs green ir : List (List Char)) :
    count_verb_mode_units_for_field field text vs v2b verbs green ir
      = (gatedUnitCount vs v2b verbs green (iter_field_items field text),
         gatedUnitCount vs v2b verbs ir (iter_field_items field text)) := by
  have main : ∀ (items : List (List Char)) (a b : Nat),
      items.foldl (verbModeStep vs v2b verbs green ir) (a, b)
        = (a + gatedUnitCount vs v2b verbs green items,
           b + gatedUnitCount vs v2b verbs ir items) := by
    intro items
    induction items with
    | nil => intro a b; simp [gatedUnitCount]
    | cons x xs ih =>
      intro a b
      rw [List.foldl_cons, verbModeStep_eq, ih]
      simp [gatedUnitCount, Nat.add_assoc]
  unfold count_verb_mode_units_for_field
  by_cases ht : text = []
  · subst ht
    rw [if_pos rfl, iter_field_items_empty]
    simp [gatedUnitCount]
  · rw [if_neg ht]
    simpa using main (iter_field_items field text) 0 0

/-! ### Unit segmentation (claim C3) -/

lemma dropWhile_eq_drop (p : Char → Bool) :
    ∀ l : List Char, ∃ n, l.dropWhile p = l.drop n := by
  intro l
  induction l with
  | nil => exact ⟨0, rfl⟩
  | cons x xs ih =>
    by_cases hx : p x = true
    · obtain ⟨n, hn⟩ := ih
      exact ⟨n + 1, by rw [List.dropWhile_cons, if_pos hx]; simpa using hn⟩
    · exact ⟨0, by rw [List.dropWhile_cons, if_neg hx]; rfl⟩

lemma dropWhile_head_false {p : Char → Bool} :
    ∀ {l : List Char} {a : Char} {as : List Char}, l.dropWhile p = a :: as → p a = false := by
  intro l
  induction l with
  | nil => intro a as h; simp at h
  | cons x xs ih =>
    intro a as h
    rw [List.dropWhile_cons] at h
    by_cases hx : p x = true
    · rw [if_pos hx] at h; exact ih h
    · rw [if_neg hx] at h
      cases h
      simpa using hx

lemma stripTrailing_cons_head {a : Char} (tl : List Char) (ha : isSpaceChar a = false) :
    ∃ zs, stripTrailing (a :: tl) = a :: zs := by
  unfold stripTrailing
  rw [List.reverse_cons]
  obtain ⟨n, hn⟩ := dropWhile_eq_drop isSpaceChar (tl.reverse ++ [a])
  have hne : (tl.reverse ++ [a]).dropWhile isSpaceChar ≠ [] := by
    intro hnil
    have := List.dropWhile_eq_nil_iff.mp hnil a (by simp)
    simp [ha] at this
  rw [hn] at hne ⊢
  have hlen : n ≤ tl.reverse.length := by
    by_contra hgt
    push_neg at hgt
    apply hne
    apply List.drop_eq_nil_of_le
    have hL : (tl.reverse ++ [a]).length = tl.length + 1 := by simp
    rw [hL, List.length_reverse] at *
    omega
  rw [List.drop_append_of_le_length hlen, List.reverse_append]
  exact ⟨(tl.reverse.drop n).reverse, rfl⟩

lemma strip_head {l : List Char} {c : Char} {cs : List Char} (h : strip l = c :: cs) :
    isSpaceChar c = false := by
  unfold strip at h
  cases hd : l.dropWhile isSpaceChar with
  | nil => rw [hd] at h; simp [stripTrailing] at h
  | cons a tl =>
    rw [hd] at h
    have ha := dropWhile_head_false hd
    obtain ⟨zs, hz⟩ := stripTrailing_cons_head tl ha
    rw [hz] at h
    cases h
    exact ha

lemma all_space_of_strip_eq_nil {u : List Char} (h : strip u = []) :
    ∀ c ∈ u, isSpaceChar c = true := by
  unfold strip stripTrailing at h
  have h1 : (u.dropWhile isSpaceChar).reverse.dropWhile isSpaceChar = [] := by
    rwa [List.reverse_eq_nil_iff] at h
  have h2 := List.dropWhile_eq_nil_iff.mp h1
  intro c hc
  have hc' : c ∈ u.takeWhile isSpaceChar ++ u.dropWhile isSpaceChar := by
    rw [List.takeWhile_append_dropWhile]
    exact hc
  rcases List.mem_append.mp hc' with h3 | h3
  · exact List.mem_takeWhile_imp h3
  · exact h2 c (List.mem_reverse.mpr h3)

/-- The first part emitted by the split scanner contains the head character
of the text, provided no separator matches at position zero. -/
lemma splitAux_first_mem (sep : List Char → Nat → Option Nat) (c : Char) (cs : List Char) :
    ∀ (fuel p : Nat), (p = 0 → sep (c :: cs) 0 = none) →
      ∃ u rest, splitAux sep (c :: cs) fuel 0 p = u :: rest ∧ c ∈ u := by
  intro fuel
  induction fuel with
  | zero =>
    intro p hp
    refine ⟨slice (c :: cs) 0 (c :: cs).length, [], rfl, ?_⟩
    simp [slice]
  | succ n ih =>
    intro p hp
    by_cases hlen : p < (c :: cs).length
    · rw [splitAux, if_pos hlen]
      cases hsep : sep (c :: cs) p with
      | some len =>
        have hp0 : p ≠ 0 := by
          intro h0
          rw [h0, hp h0] at hsep
          exact Option.noConfusion hsep
        refine ⟨slice (c :: cs) 0 p, _, rfl, ?_⟩
        cases p with
        | zero => exact absurd rfl hp0
        | succ m => simp [slice, List.take_cons]
      | none => exact ih (p + 1) (by omega)
    · rw [splitAux, if_neg hlen]
      refine ⟨slice (c :: cs) 0 (c :: cs).length, [], rfl, ?_⟩
      simp [slice]

/-- For nonempty stripped WA/PC text the filtered item list is nonempty, so
the `items or [text]` fallback of `_iter_field_items` is never taken. -/
lemma wa_items_ne_nil {text : List Char} (hs : strip text ≠ []) :
    ((pySplit itemSepLen (strip text)).map strip).filter (fun x => x ≠ []) ≠ [] := by
  obtain ⟨c, cs, hcc⟩ : ∃ c cs, strip text = c :: cs := by
    cases h : strip text with
    | nil => exact absurd h hs
    | cons c cs => exact ⟨c, cs, rfl⟩
  have hcsp := strip_head hcc
  have hsep0 : itemSepLen (c :: cs) 0 = none := by
    simp [itemSepLen, hcsp]
  rw [hcc]
  obtain ⟨u, rest, hu, hcu⟩ :=
    splitAux_first_mem itemSepLen c cs ((c :: cs).length + 1) 0 (fun _ => hsep0)
  have hps : pySplit itemSepLen (c :: cs) = u :: rest := hu
  rw [hps]
  intro hnil
  rw [List.filter_eq_nil_iff] at hnil
  have hmem : strip u ∈ (u :: rest).map strip := by simp
  have hsu : strip u = [] := by simpa using hnil (strip u) hmem
  have := all_space_of_strip_eq_nil hsu c hcu
  rw [hcsp] at this
  exact Bool.noConfusion this

/-- Claim C3 is false on the code: in the verb-gated counter the
Title/Descriptor field is one single unit — it is not split at terminal
punctuation.  With verb vocabulary `monitor` and keyword vocabulary
`energy`, the title `"Monitor results. energy use."` yields one GreenTech
unit (the verb in the first sentence qualifies the keyword in the second),
while the sentence-split units the claim describes would yield zero. -/
theorem title_units_not_sentence_split :
    count_verb_mode_units_for_field Field.cuTitle "Monitor results. energy use.".data
        ["energy".data] [("energy".data, "energy".data)] ["monitor".data]
        ["energy".data] [] = (1, 0)
    ∧ claim3GatedUnits Field.cuTitle "Monitor results. energy use.".data
        ["energy".data] [("energy".data, "energy".data)] ["monitor".data]
        ["energy".data] [] = (0, 0) := by
  constructor
  · decide
  · decide

/-- Claim C3 (amended): for verb-gated counting WorkActivity and
PerformanceCriteria field text is split into item units at the explicit
`" - "` item delimiter (stripped, empty items discarded, and the fallback
to the whole field is unreachable), while Title and Descriptor field text
forms one single unit without any sentence splitting, before the per-unit
verb-before-keyword qualification test is applied. -/
theorem iter_field_items_amended_spec (field : Field) (text : List Char) :
    iter_field_items field text = claim3AmendedUnits field text := by
  unfold iter_field_items claim3AmendedUnits
  by_cases hs : strip text = []
  · rw [if_pos hs, if_pos hs]
  · rw [if_neg hs, if_neg hs]
    cases field with
    | workActivity => exact if_neg (wa_items_ne_nil hs)
    | performanceCriteria => exact if_neg (wa_items_ne_nil hs)
    | cuTitle => rfl
    | cuDescriptor => rfl

/-! ### Matcher properties (claims C5 and C6) -/

/-- Every match the scan emits was selected by `firstMatchAt` at its own
start position, with a valid lookbehind and consistent end offset. -/
lemma scanFrom_spec (vs : List (List Char)) (t : List Char) :
    ∀ (fuel p : Nat) (m : RMatch), m ∈ scanFrom vs t fuel p →
      boundaryOkBefore t m.start = true
      ∧ vs.find? (fun v => variantMatchesAt t v m.start) = some m.surface
      ∧ m.stop = m.start + m.surface.length := by
  intro fuel
  induction fuel with
  | zero => intro p m h; simp [scanFrom] at h
  | succ n ih =>
    intro p m h
    rw [scanFrom] at h
    by_cases hp : p ≤ t.length
    · rw [if_pos hp] at h
      cases hf : firstMatchAt vs t p with
      | some v =>
        rw [hf] at h
        rcases List.mem_cons.mp h with heq | h2
        · subst heq
          unfold firstMatchAt at hf
          by_cases hb : boundaryOkBefore t p = true
          · rw [if_pos hb] at hf
            exact ⟨hb, hf, rfl⟩
          · rw [if_neg hb] at hf
            exact Option.noConfusion hf
        · exact ih _ m h2
      | none =>
        rw [hf] at h
        exact ih _ m h
    · rw [if_neg hp] at h
      simp at h

/-- Claim C5: every occurrence reported by the matcher starts either at the
text start or after a non-word character, and ends either at the text end
or before a non-word character; its surface is a registered variant that
occurs literally at the reported position.  Hence a variant never matches
as a substring of a longer word. -/
theorem matcher_word_boundary_spec (vs : List (List Char)) (t : List Char) (m : RMatch)
    (hm : m ∈ findMatches vs t) :
    (m.start = 0 ∨ isWordChar (t.getD (m.start - 1) ' ') = false)
    ∧ (t.length ≤ m.stop ∨ isWordChar (t.getD m.stop ' ') = false)
    ∧ m.surface ∈ vs
    ∧ (t.drop m.start).take m.surface.length = m.surface := by
  obtain ⟨hb, hf, hstop⟩ := scanFrom_spec vs t (t.length + 1) 0 m hm
  have hpred := List.find?_some hf
  have hmem := List.mem_of_find?_eq_some hf
  rw [variantMatchesAt, Bool.and_eq_true] at hpred
  refine ⟨?_, ?_, hmem, ?_⟩
  · rw [boundaryOkBefore, Bool.or_eq_true, decide_eq_true_eq, Bool.not_eq_true'] at hb
    exact hb
  · have h2 := hpred.2
    rw [boundaryOkAfter, Bool.or_eq_true, decide_eq_true_eq, Bool.not_eq_true'] at h2
    rw [hstop]
    exact h2
  · have h1 := hpred.1
    rwa [matchesAt, decide_eq_true_eq] at h1

/-- Witness for claim C5: the single match of `energy` in
`"use energy now"` sits between two spaces, and `energy` finds no
occurrence at all inside `energize`. -/
theorem matcher_word_boundary_witness :
    (RMatch.mk 4 10 "energy".data ∈ findMatches ["energy".data] "use energy now".data)
    ∧ ((4 : Nat) = 0 ∨ isWordChar ("use energy now".data.getD (4 - 1) ' ') = false)
    ∧ ("use energy now".data.length ≤ 10 ∨ isWordChar ("use energy now".data.getD 10 ' ') = false)
    ∧ findMatches ["energy".data] "energize".data = [] := by
  have hm : RMatch.mk 4 10 "energy".data ∈ findMatches ["energy".data] "use energy now".data := by
    decide
  have h := matcher_word_boundary_spec ["energy".data] "use energy now".data
    (RMatch.mk 4 10 "energy".data) hm
  exact ⟨hm, h.1, h.2.1, by decide⟩

/-- Decreasing-length order used by the longest-first alternation. -/
def lenGe (a b : List Char) : Prop := b.length ≤ a.length

lemma mem_insertLen {a v : List Char} :
    ∀ {l : List (List Char)}, a ∈ insertLen v l ↔ a = v ∨ a ∈ l := by
  intro l
  induction l with
  | nil => simp [insertLen]
  | cons w ws ih =>
    rw [insertLen]
    by_cases h : w.length ≤ v.length
    · rw [if_pos h]
      simp
    · rw [if_neg h]
      simp only [List.mem_cons, ih]
      tauto

lemma sorted_insertLen (v : List Char) :
    ∀ {l : List (List Char)}, List.Sorted lenGe l → List.Sorted lenGe (insertLen v l) := by
  intro l
  induction l with
  | nil => intro _; simp [insertLen]
  | cons w ws ih =>
    intro hs
    obtain ⟨hw, hws⟩ := List.sorted_cons.mp hs
    rw [insertLen]
    by_cases h : w.length ≤ v.length
    · rw [if_pos h, List.sorted_cons]
      refine ⟨?_, hs⟩
      intro b hb
      rcases List.mem_cons.mp hb with rfl | hb2
      · exact h
      · exact le_trans (hw b hb2) h
    · rw [if_neg h, List.sorted_cons]
      refine ⟨?_, ih hws⟩
      intro b hb
      rcases mem_insertLen.mp hb with rfl | hb2
      · exact le_of_lt (lt_of_not_le h)
      · exact hw b hb2

lemma sorted_sortLongestFirst (l : List (List Char)) :
    List.Sorted lenGe (sortLongestFirst l) := by
  unfold sortLongestFirst
  induction l with
  | nil => simp
  | cons x xs ih => exact sorted_insertLen x ih

lemma mem_sortLongestFirst {a : List Char} :
    ∀ {l : List (List Char)}, a ∈ sortLongestFirst l ↔ a ∈ l := by
  intro l
  unfold sortLongestFirst
  induction l with
  | nil => simp
  | cons x xs ih =>
    rw [List.foldr_cons, mem_insertLen, ih, List.mem_cons]

/-- In a list sorted by decreasing length, the first element satisfying a
predicate is at least as long as every element satisfying it. -/
lemma find?_length_ge {pred : List Char → Bool} :
    ∀ {vs : List (List Char)} {a b : List Char}, List.Sorted lenGe vs →
      vs.find? pred = some a → b ∈ vs → pred b = true → b.length ≤ a.length := by
  intro vs
  induction vs with
  | nil => intro a b _ h; simp at h
  | cons x xs ih =>
    intro a b hs hf hb hpb
    obtain ⟨hx, hxs⟩ := List.sorted_cons.mp hs
    by_cases hpx : pred x = true
    · rw [List.find?_cons_of_pos _ hpx] at hf
      cases hf
      rcases List.mem_cons.mp hb with rfl | hb2
      · exact le_refl _
      · exact hx b hb2
    · rw [List.find?_cons_of_neg _ hpx] at hf
      rcases List.mem_cons.mp hb with rfl | hb2
      · exact absurd hpb hpx
      · exact ih hxs hf hb2 hpb

/-- Matching is a function of the case-folded text only. -/
lemma find_and_count_case_insensitive (vs : List (List Char))
    (v2b : List (List Char × List Char)) (t1 t2 : List Char)
    (h : lowerList t1 = lowerList t2) :
    find_and_count_variants vs v2b t1 = find_and_count_variants vs v2b t2 := by
  have hlen : t1.length = t2.length := by
    have hc := congrArg List.length h
    simpa [lowerList] using hc
  unfold find_and_count_variants
  by_cases h1 : t1 = []
  · subst h1
    have h2 : t2 = [] := List.length_eq_zero.mp (by simpa using hlen.symm)
    subst h2
    rfl
  · have h2 : t2 ≠ [] := by
      intro hh
      subst hh
      exact h1 (List.length_eq_zero.mp (by simpa using hlen))
    rw [if_neg h1, if_neg h2, h]

/-- Claim C6: the compiled matcher's alternation lists exactly the
registered surface variants in decreasing length order; matching is
case-insensitive (it depends on the text only through its lowercase
folding); and whenever a registered variant could also match — literally
and with a valid trailing word boundary — at the start position of a
reported occurrence, the reported (matched) variant is at least as long,
so the longest matching variant wins. -/
theorem matcher_longest_first_spec (greenBase irBase : List (List Char))
    (greenSeed irSeed : List Char → List (List Char)) :
    List.Sorted lenGe (build_regex_and_maps greenBase irBase greenSeed irSeed).1
    ∧ (∀ v, v ∈ (build_regex_and_maps greenBase irBase greenSeed irSeed).1 ↔
        v ∈ ((build_regex_and_maps greenBase irBase greenSeed irSeed).2.1).map (fun p => p.1))
    ∧ (∀ (vs : List (List Char)) (v2b : List (List Char × List Char)) (t1 t2 : List Char),
        lowerList t1 = lowerList t2 →
        find_and_count_variants vs v2b t1 = find_and_count_variants vs v2b t2)
    ∧ (∀ (t : List Char) (m : RMatch) (v : List Char),
        m ∈ findMatches (build_regex_and_maps greenBase irBase greenSeed irSeed).1 t →
        v ∈ (build_regex_and_maps greenBase irBase greenSeed irSeed).1 →
        matchesAt v t m.start = true →
        boundaryOkAfter t (m.start + v.length) = true →
        v.length ≤ m.surface.length) := by
  refine ⟨sorted_sortLongestFirst _, fun v => mem_sortLongestFirst,
    find_and_count_case_insensitive, ?_⟩
  intro t m v hm hv hmat hba
  obtain ⟨hb, hf, hstop⟩ := scanFrom_spec _ t (t.length + 1) 0 m hm
  refine find?_length_ge (sorted_sortLongestFirst _) hf hv ?_
  rw [variantMatchesAt, Bool.and_eq_true]
  exact ⟨hmat, hba⟩

/-- Witness for claim C6: over the vocabulary `{ab, ab cd}` the text
`"xx ab cd yy"` reports the five-character surface `ab cd` at position 3
even though the two-character variant `ab` also matches there. -/
theorem matcher_longest_first_witness :
    (RMatch.mk 3 8 "ab cd".data ∈
      findMatches (build_regex_and_maps ["ab".data, "ab cd".data] []
        (fun _ => []) (fun _ => [])).1 "xx ab cd yy".data)
    ∧ ("ab".data).length ≤ (RMatch.mk 3 8 "ab cd".data).surface.length := by
  have hm : RMatch.mk 3 8 "ab cd".data ∈
      findMatches (build_regex_and_maps ["ab".data, "ab cd".data] []
        (fun _ => []) (fun _ => [])).1 "xx ab cd yy".data := by decide
  refine ⟨hm, ?_⟩
  exact (matcher_longest_first_spec ["ab".data, "ab cd".data] []
      (fun _ => []) (fun _ => [])).2.2.2 "xx ab cd yy".data
    (RMatch.mk 3 8 "ab cd".data) "ab".data hm (by decide) (by decide) (by decide)

/-! ### Surface-to-base conflict resolution (claim C7) -/

/-- The key list of a dictionary. -/
def dkeys (d : List (List Char × List Char)) : List (List Char) :=
  d.map (fun p => p.1)

lemma dlookup_cons (p : List Char × List Char) (ps : List (List Char × List Char))
    (k : List Char) :
    dlookup (p :: ps) k = if p.1 = k then some p.2 else dlookup ps k := by
  unfold dlookup
  by_cases h : p.1 = k
  · rw [List.find?_cons_of_pos _ (by simpa using h), if_pos h]
    rfl
  · rw [List.find?_cons_of_neg _ (by simpa using h), if_neg h]

lemma dlookup_dinsert (d : List (List Char × List Char)) (k v k' : List Char) :
    dlookup (dinsert d k v) k' = if k' = k then some v else dlookup d k' := by
  induction d with
  | nil =>
    rw [show dinsert [] k v = [(k, v)] from rfl, dlookup_cons]
    by_cases h : k = k'
    · rw [if_pos h, if_pos h.symm]
    · rw [if_neg h, if_neg (fun hh => h hh.symm)]
  | cons p ps ih =>
    rw [dinsert]
    by_cases hp : p.1 = k
    · rw [if_pos hp, dlookup_cons, dlookup_cons]
      by_cases h : k = k'
      · rw [if_pos h, if_pos h.symm]
      · rw [if_neg h, if_neg (fun hh => h hh.symm), if_neg (by rw [hp]; exact h)]
    · rw [if_neg hp, dlookup_cons, dlookup_cons, ih]
      by_cases hq : p.1 = k'
      · rw [if_pos hq, if_pos hq, if_neg (fun hh => hp (hq.trans hh))]
      · rw [if_neg hq, if_neg hq]

lemma dlookup_registerList (b : List Char) :
    ∀ (vsl : List (List Char)) (d : List (List Char × List Char)) (k : List Char),
      dlookup (vsl.foldl (fun d v => dinsert d v b) d) k
        = if k ∈ vsl then some b else dlookup d k := by
  intro vsl
  induction vsl with
  | nil => intro d k; simp
  | cons x xs ih =>
    intro d k
    rw [List.foldl_cons, ih]
    by_cases hx : k ∈ xs
    · rw [if_pos hx, if_pos (List.mem_cons_of_mem x hx)]
    · rw [if_neg hx, dlookup_dinsert]
      by_cases hk : k = x
      · rw [if_pos hk, if_pos (by rw [hk]; exact List.mem_cons_self x xs)]
      · rw [if_neg hk, if_neg (by
          intro hh
          rcases List.mem_cons.mp hh with h1 | h1
          · exact hk h1
          · exact hx h1)]

lemma getLast?_cons_eq_some {α : Type} {l : List α} {x : α} (h : l.getLast? = some x)
    (a : α) : (a :: l).getLast? = some x := by
  cases l with
  | nil => simp at h
  | cons b bs => rw [List.getLast?_cons_cons]; exact h

lemma dlookup_buildMap_aux (seedDict : List Char → List (List Char)) (s : List Char) :
    ∀ (order : List (List Char)) (d : List (List Char × List Char)),
      dlookup (order.foldl (fun d b => registerTerm d seedDict b) d) s
        = match (order.filter (fun b => decide (s ∈ termVariants seedDict b))).getLast? with
          | some b => some b
          | none => dlookup d s := by
  intro order
  induction order with
  | nil => intro d; simp
  | cons b rest ih =>
    intro d
    rw [List.foldl_cons, ih]
    have hreg : dlookup (registerTerm d seedDict b) s
        = if s ∈ termVariants seedDict b then some b else dlookup d s := by
      unfold registerTerm
      exact dlookup_registerList b (termVariants seedDict b) d s
    rw [List.filter_cons]
    by_cases hb : s ∈ termVariants seedDict b
    · rw [if_pos (by simpa using hb)]
      cases hrest : (rest.filter (fun bb => decide (s ∈ termVariants seedDict bb))).getLast? with
      | some b2 => rw [getLast?_cons_eq_some hrest]
      | none =>
        have hres : rest.filter (fun bb => decide (s ∈ termVariants seedDict bb)) = [] :=
          List.getLast?_eq_none_iff.mp hrest
        rw [hres]
        simp [hreg, hb]
    · rw [if_neg (by simpa using hb)]
      cases hrest : (rest.filter (fun bb => decide (s ∈ termVariants seedDict bb))).getLast? with
      | some b2 => simp
      | none => simp [hreg, hb]

lemma mem_dkeys_dinsert {x k v : List Char} :
    ∀ {d : List (List Char × List Char)},
      x ∈ dkeys (dinsert d k v) ↔ x = k ∨ x ∈ dkeys d := by
  intro d
  induction d with
  | nil => simp [dinsert, dkeys]
  | cons p ps ih =>
    rw [dinsert]
    by_cases hp : p.1 = k
    · rw [if_pos hp]
      simp [dkeys, hp]
    · rw [if_neg hp]
      simp only [dkeys, List.map_cons, List.mem_cons] at ih ⊢
      rw [ih]
      tauto

lemma nodup_dkeys_dinsert {d : List (List Char × List Char)}
    (h : (dkeys d).Nodup) (k v : List Char) : (dkeys (dinsert d k v)).Nodup := by
  induction d with
  | nil => simp [dinsert, dkeys]
  | cons p ps ih =>
    rw [dinsert]
    simp only [dkeys, List.map_cons, List.nodup_cons] at h
    by_cases hp : p.1 = k
    · rw [if_pos hp]
      simp only [dkeys, List.map_cons, List.nodup_cons]
      rw [← hp]
      exact h
    · rw [if_neg hp]
      simp only [dkeys, List.map_cons, List.nodup_cons]
      refine ⟨?_, ih h.2⟩
      intro hmem
      rcases mem_dkeys_dinsert.mp hmem with h1 | h1
      · exact hp h1
      · exact h.1 h1

lemma nodup_dkeys_foldl_dinsert (b : List Char) :
    ∀ (vsl : List (List Char)) (d : List (List Char × List Char)),
      (dkeys d).Nodup → (dkeys (vsl.foldl (fun d v => dinsert d v b) d)).Nodup := by
  intro vsl
  induction vsl with
  | nil => intro d h; exact h
  | cons x xs ih =>
    intro d h
    rw [List.foldl_cons]
    exact ih _ (nodup_dkeys_dinsert h x b)

lemma nodup_dkeys_buildMap (order : List (List Char))
    (seedDict : List Char → List (List Char)) :
    (dkeys (buildMap order seedDict)).Nodup := by
  have main : ∀ (ord : List (List Char)) (d : List (List Char × List Char)),
      (dkeys d).Nodup →
      (dkeys (ord.foldl (fun d b => registerTerm d seedDict b) d)).Nodup := by
    intro ord
    induction ord with
    | nil => intro d h; exact h
    | cons b rest ih =>
      intro d h
      rw [List.foldl_cons]
      exact ih _ (nodup_dkeys_foldl_dinsert b (termVariants seedDict b) d h)
  exact main order [] (by simp [dkeys])

lemma dlookup_dupdate (k : List Char) :
    ∀ (e d : List (List Char × List Char)),
      dlookup (dupdate d e) k
        = match (e.filter (fun p => decide (p.1 = k))).getLast? with
          | some q => some q.2
          | none => dlookup d k := by
  intro e
  induction e with
  | nil => intro d; simp [dupdate]
  | cons p ps ih =>
    intro d
    show dlookup (dupdate (dinsert d p.1 p.2) ps) k = _
    rw [ih]
    rw [List.filter_cons]
    by_cases hp : p.1 = k
    · rw [if_pos (by simpa using hp)]
      cases hrest : (ps.filter (fun q => decide (q.1 = k))).getLast? with
      | some q => rw [getLast?_cons_eq_some hrest]
      | none =>
        have hres : ps.filter (fun q => decide (q.1 = k)) = [] :=
          List.getLast?_eq_none_iff.mp hrest
        rw [hres]
        simp [dlookup_dinsert, hp.symm]
    · rw [if_neg (by simpa using hp)]
      cases hrest : (ps.filter (fun q => decide (q.1 = k))).getLast? with
      | some q => simp
      | none =>
        simp only []
        rw [dlookup_dinsert, if_neg (fun hh : k = p.1 => hp hh.symm)]

lemma getLast?_filter_eq_find? (k : List Char) :
    ∀ {e : List (List Char × List Char)}, (dkeys e).Nodup →
      (e.filter (fun p => decide (p.1 = k))).getLast?
        = e.find? (fun p => decide (p.1 = k)) := by
  intro e
  induction e with
  | nil => intro _; simp
  | cons p ps ih =>
    intro hn
    simp only [dkeys, List.map_cons, List.nodup_cons] at hn
    rw [List.filter_cons]
    by_cases hp : p.1 = k
    · rw [if_pos (by simpa using hp), List.find?_cons_of_pos _ (by simpa using hp)]
      have hres : ps.filter (fun q => decide (q.1 = k)) = [] := by
        rw [List.filter_eq_nil_iff]
        intro q hq hqk
        apply hn.1
        have : q.1 = p.1 := by
          rw [hp]
          simpa using hqk
        rw [← this]
        exact List.mem_map_of_mem (fun r => r.1) hq
      rw [hres]
      rfl
    · rw [if_neg (by simpa using hp), List.find?_cons_of_neg _ (by simpa using hp)]
      exact ih hn.2

/-- Claim C7: in `build_variant_map`, whenever several processed base terms
produce the same surface, the lookup holds the base processed last
(silent overwrite, never an error): the lookup equals the last element of
the processing order that generates the surface.  And in the combined
lookup of `build_regex_and_maps`, every IR4 mapping is applied after every
GreenTech mapping, so any surface present in the IR4 map — in particular
one produced by both taxonomies — resolves to its IR4 base. -/
theorem variant_map_last_wins_spec (order : List (List Char))
    (seedDict greenSeed irSeed : List Char → List (List Char))
    (greenBase irBase : List (List Char)) (s b : List Char) :
    dlookup (buildMap order seedDict) s
      = (order.filter (fun bb => decide (s ∈ termVariants seedDict bb))).getLast?
    ∧ (dlookup (build_variant_map irBase irSeed).2 s = some b →
        dlookup (build_regex_and_maps greenBase irBase greenSeed irSeed).2.1 s = some b) := by
  constructor
  · have h := dlookup_buildMap_aux seedDict s order []
    rw [show buildMap order seedDict
        = order.foldl (fun d b => registerTerm d seedDict b) [] from rfl, h]
    cases hl : (order.filter (fun bb => decide (s ∈ termVariants seedDict bb))).getLast? with
    | some bb => rfl
    | none => rfl
  · intro h
    show dlookup (dupdate (dupdate [] (build_variant_map greenBase greenSeed).2)
        (build_variant_map irBase irSeed).2) s = some b
    rw [dlookup_dupdate]
    have hnodup : (dkeys (build_variant_map irBase irSeed).2).Nodup :=
      nodup_dkeys_buildMap _ _
    rw [getLast?_filter_eq_find? s hnodup]
    unfold dlookup at h
    cases hf : (build_variant_map irBase irSeed).2.find? (fun p => decide (p.1 = s)) with
    | none =>
      rw [hf] at h
      exact Option.noConfusion h
    | some q =>
      rw [hf] at h
      simpa using h

/-- Witness for claim C7: GreenTech base `a` and IR4 base `b` both carry
the seed variant `iot`; the combined lookup resolves the shared surface
`iot` to the IR4 base `b`. -/
theorem variant_map_last_wins_witness :
    dlookup (build_regex_and_maps ["a".data] ["b".data]
        (fun k => if k = "a".data then ["iot".data] else [])
        (fun k => if k = "b".data then ["iot".data] else [])).2.1 "iot".data
      = some "b".data :=
  (variant_map_last_wins_spec [] (fun _ => [])
      (fun k => if k = "a".data then ["iot".data] else [])
      (fun k => if k = "b".data then ["iot".data] else [])
      ["a".data] ["b".data] "iot".data "b".data).2 (by decide)

/-! ### Variant expansion (claim C8) -/

/-- Claim C8 is false on the code as worded: for the `y`-ending token
`technology` the expander also generates the naive plural `technologys`,
which is absent from the claim's inflection set (where `-ies`, `-ied`,
`-ying` stand in place of the naive suffixes). -/
theorem expand_variants_y_counterexample :
    "technologys".data ∈ expand_phrase_variants "technology".data
    ∧ "technologys".data ∉ claim8Strict "technology".data := by
  constructor
  · decide
  · decide

lemma morph_forms_iff (tok sfc : List Char) :
    sfc ∈ morph_last_token_forms tok ↔ sfc ∈ claim8AmendedForms tok := by
  unfold morph_last_token_forms claim8AmendedForms
  by_cases hy : endsWithL (lowerList tok) "y".data = true
  · by_cases hal : (endsWithL (lowerList tok) "al".data
        || endsWithL (lowerList tok) "ic".data) = true
    <;> simp [hy, hal]
    <;> tauto
  · by_cases hal : (endsWithL (lowerList tok) "al".data
        || endsWithL (lowerList tok) "ic".data) = true
    <;> simp [hy, hal]

/-- Claim C8 (amended): the expander is the stated pure function of the
phrase except that a token ending in `y` keeps the naive `-s` plural
alongside `-ies`, `-ied`, `-ying` (which replace only `-es`, `-ed`,
`-ing`), and the joins of a multi-token phrase also include the uninflected
last token itself; with that amendment the generated set is exactly the
claimed one. -/
theorem expand_variants_amended_spec (phrase sfc : List Char) :
    sfc ∈ expand_phrase_variants phrase ↔ sfc ∈ claim8Amended phrase := by
  unfold expand_phrase_variants claim8Amended
  cases htoks : tokenize phrase with
  | nil => simp
  | cons t0 rest =>
    cases rest with
    | nil =>
      simp [List.getLast_singleton, morph_forms_iff]
    | cons t1 ts =>
      simp [morph_forms_iff]

/-! ### Degenerate inputs (claim C9) -/

lemma scanFrom_nil_vs (t : List Char) : ∀ (fuel p : Nat), scanFrom [] t fuel p = [] := by
  intro fuel
  induction fuel with
  | zero => intro p; rfl
  | succ n ih =>
    intro p
    rw [scanFrom]
    by_cases hp : p ≤ t.length
    · rw [if_pos hp]
      have hf : firstMatchAt [] t p = none := by
        unfold firstMatchAt
        split <;> rfl
      rw [hf]
      exact ih _
    · rw [if_neg hp]

lemma findMatches_nil_vs (t : List Char) : findMatches [] t = [] :=
  scanFrom_nil_vs t _ 0

lemma find_and_count_nil_vs (v2b : List (List Char × List Char)) (t : List Char) :
    (find_and_count_variants [] v2b t).2 = []
    ∧ ∀ b, (find_and_count_variants [] v2b t).1 b = 0 := by
  unfold find_and_count_variants
  by_cases ht : t = []
  · rw [if_pos ht]
    exact ⟨rfl, fun b => rfl⟩
  · rw [if_neg ht]
    constructor
    · show (findMatches [] (lowerList t)).filterMap _ = []
      rw [findMatches_nil_vs]
      rfl
    · intro b
      show ((findMatches [] (lowerList t)).filterMap _).countP _ = 0
      rw [findMatches_nil_vs]
      rfl

lemma verb_mode_nil_vs (field : Field) (text : List Char)
    (v2b : List (List Char × List Char)) (verbs green ir : List (List Char)) :
    count_verb_mode_units_for_field field text [] v2b verbs green ir = (0, 0) := by
  unfold count_verb_mode_units_for_field
  by_cases ht : text = []
  · rw [if_pos ht]
  · rw [if_neg ht]
    have hstep : ∀ (acc : Nat × Nat) (item : List Char),
        verbModeStep [] v2b verbs green ir acc item = acc := by
      intro acc item
      unfold verbModeStep
      rw [if_pos (Or.inl (findMatches_nil_vs _))]
    generalize iter_field_items field text = items
    induction items with
    | nil => rfl
    | cons x xs ih =>
      rw [List.foldl_cons, hstep]
      exact ih

lemma plainFieldUnits_nil_vs (v2b : List (List Char × List Char))
    (green ir : List (List Char)) (text : List Char) :
    plainFieldUnits [] v2b green ir text = (0, 0) := by
  unfold plainFieldUnits
  rw [(find_and_count_nil_vs v2b text).1]
  rfl

lemma fieldUnits_empty_text (vs : List (List Char)) (v2b : List (List Char × List Char))
    (green ir : List (List Char)) (verbsRegex : Option (List (List Char)))
    (verbsRequired : List Field) (field : Field) :
    fieldUnits (fun _ => []) vs v2b green ir verbsRegex verbsRequired field = (0, 0) := by
  unfold fieldUnits
  cases verbsRegex with
  | none => rfl
  | some vr =>
    by_cases hf : field ∈ verbsRequired
    · exact (if_pos hf).trans rfl
    · exact (if_neg hf).trans rfl

lemma fieldUnits_nil_vs (cu : Field → List Char) (v2b : List (List Char × List Char))
    (green ir : List (List Char)) (verbsRegex : Option (List (List Char)))
    (verbsRequired : List Field) (field : Field) :
    fieldUnits cu [] v2b green ir verbsRegex verbsRequired field = (0, 0) := by
  unfold fieldUnits
  cases verbsRegex with
  | none => exact plainFieldUnits_nil_vs v2b green ir (cu field)
  | some vr =>
    by_cases hf : field ∈ verbsRequired
    · exact (if_pos hf).trans (verb_mode_nil_vs field (cu field) v2b vr green ir)
    · exact (if_neg hf).trans (plainFieldUnits_nil_vs v2b green ir (cu field))

lemma compute_scores_zero_of_units (cu : Field → List Char) (weights : Field → Nat)
    (thresholds : Field → Int) (vs : List (List Char))
    (v2b : List (List Char × List Char)) (green ir : List (List Char))
    (verbsRegex : Option (List (List Char))) (verbsRequired : List Field) (field : Field)
    (hu : fieldUnits cu vs v2b green ir verbsRegex verbsRequired field = (0, 0)) :
    (compute_field_scores_dynamic cu weights thresholds vs v2b green ir
        verbsRegex verbsRequired).1 field = 0
    ∧ (compute_field_scores_dynamic cu weights thresholds vs v2b green ir
        verbsRegex verbsRequired).2 field = 0 := by
  constructor
  · show pyRound ((weights field : ℚ) *
        min (((fieldUnits cu vs v2b green ir verbsRegex verbsRequired field).1 : ℚ) /
             ((max 1 (thresholds field) : Int) : ℚ)) 1) = 0
    rw [hu]
    exact score_formula_zero (weights field) (max 1 (thresholds field))
  · show pyRound (if ((fieldUnits cu vs v2b green ir verbsRegex verbsRequired field).2 : ℚ) /
            ((max 1 (thresholds field) : Int) : ℚ) < 1
        then (((fieldUnits cu vs v2b green ir verbsRegex verbsRequired field).2 : ℚ) /
            ((max 1 (thresholds field) : Int) : ℚ)) * (weights field : ℚ)
        else (weights field : ℚ)) = 0
    rw [hu]
    exact ir_formula_zero (weights field) (max 1 (thresholds field))

/-- Claim C9: empty or missing field text produces zero matches and zero
scores from every counting and scoring function, and with both base-term
lists empty the builder still succeeds, its alternation is empty and
matches no text whatsoever, so every input counts and scores zero; all the
functions involved are total, so no input raises. -/
theorem empty_inputs_zero_spec :
    (∀ (vs : List (List Char)) (v2b : List (List Char × List Char)),
      (find_and_count_variants vs v2b []).2 = []
      ∧ ∀ b, (find_and_count_variants vs v2b []).1 b = 0)
    ∧ (∀ (field : Field) (vs : List (List Char)) (v2b : List (List Char × List Char))
        (verbs green ir : List (List Char)),
        count_verb_mode_units_for_field field [] vs v2b verbs green ir = (0, 0))
    ∧ (∀ (vs : List (List Char)) (v2b : List (List Char × List Char)) (rq : Bool)
        (verbs : List (List Char)) (b : List Char),
        count_keywords_with_optional_verbs [] vs v2b rq verbs b = 0)
    ∧ (∀ (weights : Field → Nat) (thresholds : Field → Int) (vs : List (List Char))
        (v2b : List (List Char × List Char)) (green ir : List (List Char))
        (verbsRegex : Option (List (List Char))) (verbsRequired : List Field)
        (field : Field),
        (compute_field_scores_dynamic (fun _ => []) weights thresholds vs v2b green ir
            verbsRegex verbsRequired).1 field = 0
        ∧ (compute_field_scores_dynamic (fun _ => []) weights thresholds vs v2b green ir
            verbsRegex verbsRequired).2 field = 0)
    ∧ (∀ (greenSeed irSeed : List Char → List (List Char)),
        (build_regex_and_maps [] [] greenSeed irSeed).1 = [])
    ∧ (∀ (t : List Char), findMatches [] t = [])
    ∧ (∀ (v2b : List (List Char × List Char)) (t : List Char),
        (find_and_count_variants [] v2b t).2 = []
        ∧ ∀ b, (find_and_count_variants [] v2b t).1 b = 0)
    ∧ (∀ (cu : Field → List Char) (weights : Field → Nat) (thresholds : Field → Int)
        (v2b : List (List Char × List Char)) (green ir : List (List Char))
        (verbsRegex : Option (List (List Char))) (verbsRequired : List Field)
        (field : Field),
        (compute_field_scores_dynamic cu weights thresholds [] v2b green ir
            verbsRegex verbsRequired).1 field = 0
        ∧ (compute_field_scores_dynamic cu weights thresholds [] v2b green ir
            verbsRegex verbsRequired).2 field = 0) := by
  refine ⟨?_, ?_, ?_, ?_, ?_, ?_, ?_, ?_⟩
  · intro vs v2b
    exact ⟨rfl, fun b => rfl⟩
  · intro field vs v2b verbs green ir
    rfl
  · intro vs v2b rq verbs b
    rfl
  · intro weights thresholds vs v2b green ir verbsRegex verbsRequired field
    exact compute_scores_zero_of_units _ weights thresholds vs v2b green ir
      verbsRegex verbsRequired field
      (fieldUnits_empty_text vs v2b green ir verbsRegex verbsRequired field)
  · intro greenSeed irSeed
    rfl
  · exact findMatches_nil_vs
  · exact find_and_count_nil_vs
  · intro cu weights thresholds v2b green ir verbsRegex verbsRequired field
    exact compute_scores_zero_of_units cu weights thresholds [] v2b green ir
      verbsRegex verbsRequired field
      (fieldUnits_nil_vs cu v2b green ir verbsRegex verbsRequired field)

end NOSS
